import Mathlib

/-!
Shallow embedding of the Farning-Bot moderation / course-management bot
(`src/main.py`) and proofs of the specification claims about it.

Python strings are modelled as Lean `String` / `List Char`; Python's
`None`-able returns as `Option`; the Discord directory (roles, channels,
members) as explicit data passed to the handler models; a raised
`ValueError` / `Forbidden` as explicit result constructors.
-/

namespace FarningBot

/-- ASCII whitespace as Python's `str.strip` / `str.split` / `\s` see it. -/
def pyIsSpace (c : Char) : Bool :=
  c = ' ' || c = '\t' || c = '\n' || c = '\r' || c = '\x0b' || c = '\x0c'

/-- Python `str.strip()` on a character list: drop whitespace at both ends. -/
def pyStripList (cs : List Char) : List Char :=
  ((cs.dropWhile pyIsSpace).reverse.dropWhile pyIsSpace).reverse

/-- Python `str.strip()`. -/
def pyStrip (s : String) : String :=
  String.mk (pyStripList s.data)

/-- Python `str.lower()` (ASCII fragment, as used by the bot). -/
def pyLower (s : String) : String :=
  String.mk (s.data.map Char.toLower)

/-- Python `str.casefold()` (ASCII fragment coincides with lower-casing). -/
def pyCasefold (s : String) : String :=
  String.mk (s.data.map Char.toLower)

/-- One step of splitting a character list into chunks: a separator starts a
new (initially empty) chunk, any other character is prepended to the current
chunk. -/
def groupStep (sep : Char → Bool) (c : Char) (acc : List (List Char)) : List (List Char) :=
  if sep c then [] :: acc
  else
    match acc with
    | [] => [[c]]
    | g :: gs => (c :: g) :: gs

/-- Maximal runs of non-separator characters, as `re.split` / `str.split`
produce them once empty chunks are discarded. -/
def groupNonSep (sep : Char → Bool) (cs : List Char) : List (List Char) :=
  (cs.foldr (groupStep sep) []).filter (fun g => g ≠ [])

/-- Python `" ".join(...)`: concatenate the chunks with single spaces. -/
def joinSpace : List (List Char) → List Char
  | [] => []
  | [g] => g
  | g :: gs => g ++ ' ' :: joinSpace gs

/-- Value of a decimal digit list, as Python `int(...)` reads it. -/
def digitsToNat (ds : List Char) : Nat :=
  ds.foldl (fun n c => n * 10 + (c.toNat - 48)) 0

/-- `TIME_MULTIPLIERS = {"s": 1, "m": 60, "h": 3600, "d": 86400}` (src/main.py:58). -/
def TIME_MULTIPLIERS (c : Char) : Nat :=
  if c = 's' then 1
  else if c = 'm' then 60
  else if c = 'h' then 3600
  else if c = 'd' then 86400
  else 0

/-- The unit letters accepted by the duration regex `(\d+)([smhd])?`. -/
def isUnitChar (c : Char) : Bool :=
  c = 's' || c = 'm' || c = 'h' || c = 'd'

/-- `MAX_TIMEOUT_SECONDS = 60 * 60 * 24 * 28` (src/main.py:46). -/
def MAX_TIMEOUT_SECONDS : Nat := 60 * 60 * 24 * 28

/-- `_parse_duration` (src/main.py:181-188): trim and lower-case, then
full-match `(\d+)([smhd])?`; digits times the unit multiplier, the unit
defaulting to `"m"`. -/
def parse_duration (duration : String) : Option Nat :=
  let cleaned := pyLower (pyStrip duration)
  let digits := cleaned.data.takeWhile Char.isDigit
  let rest := cleaned.data.dropWhile Char.isDigit
  if digits = [] then none
  else
    match rest with
    | [] => some (digitsToNat digits * TIME_MULTIPLIERS 'm')
    | [u] =>
        if isUnitChar u then some (digitsToNat digits * TIME_MULTIPLIERS u)
        else none
    | _ => none

/-- `_normalize_course_name` (src/main.py:101-102):
`" ".join(name.strip().split())`. -/
def normalize_course_name (name : String) : String :=
  String.mk (joinSpace (groupNonSep pyIsSpace (pyStripList name.data)))

/-- The character class `[a-z0-9-]` of the slug regex. -/
def isSlugChar (c : Char) : Bool :=
  ('a' ≤ c && c ≤ 'z') || ('0' ≤ c && c ≤ '9') || c = '-'

/-- `_slugify` (src/main.py:105-107): strip, lower-case, spaces to dashes,
substitute every character outside `[a-z0-9-]` by a dash, truncate to 90
characters, and fall back to `"kurs"` when empty. -/
def slugify (name : String) : String :=
  let slug := (pyLower (pyStrip name)).data.map (fun c => if c = ' ' then '-' else c)
  let subbed := slug.map (fun c => if isSlugChar c then c else '-')
  let truncated := subbed.take 90
  if truncated = [] then "kurs" else String.mk truncated

/-! ## Authorization policy (src/main.py:88-141) -/

/-- The guild-permission flags the two checks read. -/
structure Perms where
  administrator : Bool
  manage_guild : Bool
  moderate_members : Bool
deriving DecidableEq, Repr

/-- A guild member: permission flags plus held role ids. -/
structure Member where
  perms : Perms
  roles : List Nat
deriving DecidableEq, Repr

/-- `_member_has_role` (src/main.py:88-89): `bool(role_id) and any(role.id == role_id ...)`. -/
def member_has_role (m : Member) (role_id : Nat) : Bool :=
  role_id != 0 && m.roles.any (fun r => r == role_id)

/-- `_member_has_any_role` (src/main.py:92-93):
`any(_member_has_role(member, rid) for rid in role_ids if rid)`. -/
def member_has_any_role (m : Member) (role_ids : List Nat) : Bool :=
  (role_ids.filter (fun rid => rid != 0)).any (fun rid => member_has_role m rid)

/-- The `_require_moderator` predicate (src/main.py:115-126): blanket
permission flags first, then the configured Moderator role; `false` models
the raised `CheckFailure`. -/
def require_moderator (moderator_role_id : Nat) (m : Member) : Bool :=
  if m.perms.administrator || m.perms.manage_guild || m.perms.moderate_members then true
  else if member_has_role m moderator_role_id then true
  else false

/-- The `_require_course_staff` predicate (src/main.py:129-140). -/
def require_course_staff (moderator_role_id teacher_role_id : Nat) (m : Member) : Bool :=
  if m.perms.administrator || m.perms.manage_guild then true
  else if member_has_any_role m [moderator_role_id, teacher_role_id] then true
  else false

/-! ## Member-id extraction (src/main.py:59, 143-148) -/

/-- The tail of one `MENTION_PATTERN` match after `<@` and the optional `!`:
one or more digits then `>`; on success returns the id (the digit group) and
the remainder after the match. -/
def mentionTail (rest2 : List Char) : Option (Nat × List Char) :=
  match rest2.dropWhile Char.isDigit with
  | '>' :: rem =>
      if rest2.takeWhile Char.isDigit = [] then none
      else some (digitsToNat (rest2.takeWhile Char.isDigit), rem)
  | _ => none

/-- One attempted match of `MENTION_PATTERN = <@!?(\d+)>` (src/main.py:59)
at the head of the input. -/
def tryMention (cs : List Char) : Option (Nat × List Char) :=
  match cs with
  | a :: b :: rest =>
      if a = '<' ∧ b = '@' then
        mentionTail (if rest.head? = some '!' then rest.tail else rest)
      else none
  | _ => none

/-- Worker for the `MENTION_PATTERN` scan, structurally recursive on a fuel
bound; every recursive call strictly shortens the input, so any fuel of at
least the input length yields the untruncated scan (`scanMentionsGo_congr`). -/
def scanMentionsGo : Nat → List Char → List Nat
  | _, [] => []
  | 0, _ :: _ => []
  | fuel + 1, c :: rest =>
      match tryMention (c :: rest) with
      | some (n, rem) => n :: scanMentionsGo fuel rem
      | none => scanMentionsGo fuel rest

/-- `re.finditer` over `MENTION_PATTERN`: scan left to right, at each
position attempt a match; on success continue after the match. -/
def scanMentions (cs : List Char) : List Nat :=
  scanMentionsGo cs.length cs

/-- Insertion into the model of a Python `set` (kept as a duplicate-free
list). -/
def pyInsert (s : List Nat) (n : Nat) : List Nat :=
  if n ∈ s then s else s ++ [n]

/-- `_extract_member_ids` (src/main.py:143-148): the set of ids matched by
`MENTION_PATTERN`, together with every comma/whitespace-delimited chunk that
satisfies `str.isdigit`. -/
def extract_member_ids (raw : String) : List Nat :=
  let ids := (scanMentions raw.data).foldl pyInsert []
  let chunks := groupNonSep (fun c => c = ',' || pyIsSpace c) raw.data
  (chunks.filter (fun ch => ch ≠ [] && ch.all Char.isDigit)).foldl
    (fun s ch => pyInsert s (digitsToNat ch)) ids

/-! ## Embed color parsing (src/main.py:151-163) -/

/-- Result of `_parse_embed_color`: a color value, or one of the two
`ValueError`s the function raises. -/
inductive ColorResult where
  | ok (value : Nat)
  | lengthError
  | charError
deriving DecidableEq, Repr

/-- The character class `[0-9a-f]` of the hex-color regex. -/
def isHexLower (c : Char) : Bool :=
  c.isDigit || ('a' ≤ c && c ≤ 'f')

/-- Value of one lower-case hex digit, as Python `int(_, 16)` reads it. -/
def hexDigitVal (c : Char) : Nat :=
  if c.isDigit then c.toNat - 48 else c.toNat - 87

/-- Value of a lower-case hex digit list, as Python `int(_, 16)` reads it. -/
def hexToNat (ds : List Char) : Nat :=
  ds.foldl (fun n c => n * 16 + hexDigitVal c) 0

/-- `discord.Color.blurple().value` = `0x5865F2`, the default color. -/
def BLURPLE : Nat := 5793266

/-- The body of `_parse_embed_color` for present, non-empty input:
strip/lower, drop one leading `#`, require length 3 or 6, double each digit
of a 3-digit form, and require a full match of `[0-9a-f]{6}`. -/
def parse_embed_color_body (r : String) : ColorResult :=
  let cleaned := (pyStripList r.data).map Char.toLower
  let unhashed := match cleaned with | '#' :: rest => rest | cs => cs
  if unhashed.length = 3 ∨ unhashed.length = 6 then
    let expanded :=
      if unhashed.length = 3 then unhashed.flatMap (fun c => [c, c]) else unhashed
    if expanded.length = 6 ∧ expanded.all isHexLower then .ok (hexToNat expanded)
    else .charError
  else .lengthError

/-- `_parse_embed_color` (src/main.py:151-163): absent or empty input gives
the default (Python `if not raw`), otherwise the body above. -/
def parse_embed_color (raw : Option String) : ColorResult :=
  match raw with
  | none => .ok BLURPLE
  | some r =>
      if r.data = [] then .ok BLURPLE
      else parse_embed_color_body r

/-- The spec's expansion rule, stated on its own terms: the optional hex
string, after stripping a leading `#`, expanded from a 3-digit form by
doubling each digit, when the result is six characters of `[0-9a-f]`. -/
def specExpandedHex (s : String) : Option (List Char) :=
  let cleaned := (pyStripList s.data).map Char.toLower
  let unhashed := match cleaned with | '#' :: rest => rest | cs => cs
  let expanded :=
    if unhashed.length = 3 then unhashed.flatMap (fun c => [c, c]) else unhashed
  if expanded.length = 6 ∧ expanded.all isHexLower then some expanded else none

/-! ## The timeout command (src/main.py:46, 263-298) -/

/-- The visible outcome of one `/timeout` invocation. -/
inductive TimeoutOutcome where
  | invalidFormat
  | tooLong
  | forbidden
  | timedOut (seconds : Nat)
deriving DecidableEq, Repr

/-- One `/timeout` invocation: the outcome and whether the
`member.timeout(...)` directory mutation was attempted. -/
structure TimeoutResult where
  outcome : TimeoutOutcome
  mutationAttempted : Bool
deriving DecidableEq, Repr

/-- The `/timeout` handler body (src/main.py:270-298): parse the duration,
reject falsy results (`None` or `0`, by Python truthiness of
`if not seconds`), reject values over `MAX_TIMEOUT_SECONDS`, then attempt
the timeout; `permitted` tells whether the platform raises `Forbidden`. -/
def timeout_command (dauer : String) (permitted : Bool) : TimeoutResult :=
  match parse_duration dauer with
  | none => ⟨.invalidFormat, false⟩
  | some seconds =>
      if seconds = 0 then ⟨.invalidFormat, false⟩
      else if seconds > MAX_TIMEOUT_SECONDS then ⟨.tooLong, false⟩
      else if permitted then ⟨.timedOut seconds, true⟩
      else ⟨.forbidden, true⟩

/-! ## The create-kurs workflow (src/main.py:105-112, 351-408) -/

/-- A reply message the `create-kurs` handler can send. -/
inductive KursReply where
  | emptyName
  | duplicateRole
  | categoryError
  | success
deriving DecidableEq, Repr

/-- A mutating Directory call attempted by the workflow. -/
inductive DirectoryCall where
  | createRole (name : String)
  | createChannel (slug : String)
  | deleteRole (name : String)
deriving DecidableEq, Repr

/-- The observable outcome of one `create-kurs` invocation: replies sent to
the caller, attempted mutating Directory calls in order, and whether an
exception escaped the handler uncaught. -/
structure KursOutcome where
  replies : List KursReply
  calls : List DirectoryCall
  uncaughtError : Bool
deriving DecidableEq, Repr

/-- The guild state and platform behavior a `create-kurs` invocation sees. -/
structure KursGuild where
  roleNames : List String
  categoryOk : Bool
  roleCreateOk : Bool
  channelCreateOk : Bool
deriving DecidableEq, Repr

/-- `_fetch_course_role` (src/main.py:110-112): case-insensitive
(`str.casefold`) search for a role named like the normalized course name. -/
def fetch_course_role (roleNames : List String) (kurs_name : String) : Bool :=
  roleNames.any (fun r => pyCasefold r == pyCasefold (normalize_course_name kurs_name))

/-- The `create-kurs` handler body (src/main.py:354-408), invoked in a
guild: validate the normalized name, reject duplicates, resolve the
category, then create the role and the channel with no surrounding
`try/except` — a platform failure in either creation escapes uncaught. -/
def create_kurs (g : KursGuild) (name : String) : KursOutcome :=
  let kurs_name := normalize_course_name name
  if kurs_name = "" then ⟨[.emptyName], [], false⟩
  else if fetch_course_role g.roleNames kurs_name then ⟨[.duplicateRole], [], false⟩
  else if !g.categoryOk then ⟨[.categoryError], [], false⟩
  else if !g.roleCreateOk then ⟨[], [.createRole kurs_name], true⟩
  else if !g.channelCreateOk then
    ⟨[], [.createRole kurs_name, .createChannel (slugify kurs_name)], true⟩
  else
    ⟨[.success], [.createRole kurs_name, .createChannel (slugify kurs_name)], false⟩

/-! ## Enrollment loops (src/main.py:440-456, 487-504) -/

/-- One resolved member as the enrollment loops see it: their id, whether
they currently hold the course role, and whether a role mutation on them
succeeds (`false` models the platform raising `Forbidden`). -/
structure EnrollTarget where
  memberId : Nat
  hasRole : Bool
  permitted : Bool
deriving DecidableEq, Repr

/-- The `add-member` per-member loop (src/main.py:440-449): skip members who
already hold the role, otherwise attempt `add_roles` and record the member
in `updated` when it succeeds. Returns (attempted mutation calls, updated). -/
def add_member_loop (resolved : List EnrollTarget) : List Nat × List Nat :=
  resolved.foldl
    (fun acc m =>
      if m.hasRole then acc
      else (acc.1 ++ [m.memberId], if m.permitted then acc.2 ++ [m.memberId] else acc.2))
    ([], [])

/-- The `remove-member` per-member loop (src/main.py:487-496): skip members
who lack the role, otherwise attempt `remove_roles` and record the member in
`removed` when it succeeds. Returns (attempted mutation calls, removed). -/
def remove_member_loop (resolved : List EnrollTarget) : List Nat × List Nat :=
  resolved.foldl
    (fun acc m =>
      if !m.hasRole then acc
      else (acc.1 ++ [m.memberId], if m.permitted then acc.2 ++ [m.memberId] else acc.2))
    ([], [])

end FarningBot

namespace FarningBot

example : parse_duration "30m" = some 1800 := by decide
example : parse_duration "2h" = some 7200 := by decide
example : parse_duration "7d" = some 604800 := by decide
example : parse_duration "45" = some 2700 := by decide
example : parse_duration "abc" = none := by decide
example : parse_duration "  30M " = some 1800 := by decide
example : parse_duration "28d" = some MAX_TIMEOUT_SECONDS := by decide
example : slugify "  Intro to   Algebra!! " = "intro-to---algebra--" := by decide
example : normalize_course_name "  Intro   to   Algebra " = "Intro to Algebra" := by decide
example : extract_member_ids "<@123> 456,789 <@!456>" = [123, 456, 789] := by decide
example : parse_embed_color (some "#fff") = .ok 16777215 := by decide
example : parse_embed_color (some "ffffff") = .ok 16777215 := by decide
example : parse_embed_color (some "#gg0000") = .charError := by decide
example : parse_embed_color none = .ok BLURPLE := by decide
example : timeout_command "29d" true = ⟨.tooLong, false⟩ := by decide
example : timeout_command "0s" true = ⟨.invalidFormat, false⟩ := by decide
example : (timeout_command "28d" true).mutationAttempted = true := by decide

/-! ## Helper lemmas -/

theorem dropWhile_length_le (p : Char → Bool) (l : List Char) :
    (l.dropWhile p).length ≤ l.length := by
  induction l with
  | nil => simp [List.dropWhile]
  | cons a as ih =>
      simp only [List.dropWhile]
      cases p a
      · simp
      · simp
        omega

theorem mentionTail_length {rest2 rem : List Char} {n : Nat}
    (h : mentionTail rest2 = some (n, rem)) : rem.length < rest2.length := by
  unfold mentionTail at h
  split at h
  case _ rem2 hdrop =>
    split at h
    · simp at h
    · simp only [Option.some.injEq, Prod.mk.injEq] at h
      obtain ⟨-, rfl⟩ := h
      have hlen := congrArg List.length hdrop
      have hle := dropWhile_length_le Char.isDigit rest2
      simp at hlen
      omega
  case _ => simp at h

theorem tryMention_length {cs rem : List Char} {n : Nat}
    (h : tryMention cs = some (n, rem)) : rem.length < cs.length := by
  match cs with
  | [] => simp [tryMention] at h
  | [c] => simp [tryMention] at h
  | a :: b :: rest =>
      have h' : (if a = '<' ∧ b = '@' then
          mentionTail (if rest.head? = some '!' then rest.tail else rest)
          else none) = some (n, rem) := h
      by_cases hab : a = '<' ∧ b = '@'
      · rw [if_pos hab] at h'
        have h1 := mentionTail_length h'
        have h2 : (if rest.head? = some '!' then rest.tail else rest).length ≤ rest.length := by
          split
          · cases rest <;> simp
          · exact Nat.le_refl _
        simp only [List.length_cons]
        omega
      · rw [if_neg hab] at h'
        exact absurd h' (by simp)

theorem scanMentionsGo_congr (fuel : Nat) :
    ∀ (fuel' : Nat) (cs : List Char), cs.length ≤ fuel → cs.length ≤ fuel' →
      scanMentionsGo fuel cs = scanMentionsGo fuel' cs := by
  induction fuel using Nat.strong_induction_on with
  | _ fuel ih =>
      intro fuel' cs hf hf'
      match cs with
      | [] => cases fuel <;> cases fuel' <;> rfl
      | c :: rest =>
          simp only [List.length_cons] at hf hf'
          obtain ⟨f, rfl⟩ : ∃ f, fuel = f + 1 := ⟨fuel - 1, by omega⟩
          obtain ⟨f', rfl⟩ : ∃ f', fuel' = f' + 1 := ⟨fuel' - 1, by omega⟩
          simp only [scanMentionsGo]
          cases htm : tryMention (c :: rest) with
          | some nr =>
              obtain ⟨n, rem⟩ := nr
              have hlt := tryMention_length htm
              simp only [List.length_cons] at hlt
              have h1 : rem.length ≤ f := by omega
              have h2 : rem.length ≤ f' := by omega
              have hstep : scanMentionsGo f rem = scanMentionsGo f' rem :=
                (ih f (by omega) rem.length rem h1 (le_refl _)).trans
                  (ih rem.length (by omega) f' rem (le_refl _) h2)
              show n :: scanMentionsGo f rem = n :: scanMentionsGo f' rem
              rw [hstep]
          | none =>
              have h1 : rest.length ≤ f := by omega
              have h2 : rest.length ≤ f' := by omega
              show scanMentionsGo f rest = scanMentionsGo f' rest
              exact (ih f (by omega) rest.length rest h1 (le_refl _)).trans
                (ih rest.length (by omega) f' rest (le_refl _) h2)

theorem all_takeWhile (p : Char → Bool) (l : List Char) :
    (l.takeWhile p).all p = true := by
  induction l with
  | nil => rfl
  | cons a as ih =>
      simp only [List.takeWhile]
      cases hp : p a
      · rfl
      · simp [hp, ih]

theorem dropWhile_head_not (p : Char → Bool) (l : List Char) :
    ∀ c, (l.dropWhile p).head? = some c → p c = false := by
  induction l with
  | nil => intro c h; simp [List.dropWhile] at h
  | cons a as ih =>
      intro c h
      simp only [List.dropWhile] at h
      cases hp : p a
      · rw [hp] at h
        simp at h
        rw [← h]
        exact hp
      · rw [hp] at h
        exact ih c h

theorem takeWhile_of_all_append {p : Char → Bool} {ds rest : List Char}
    (hall : ds.all p = true)
    (hhead : ∀ c, rest.head? = some c → p c = false) :
    (ds ++ rest).takeWhile p = ds ∧ (ds ++ rest).dropWhile p = rest := by
  induction ds with
  | nil =>
      simp only [List.nil_append]
      cases rest with
      | nil => exact ⟨rfl, rfl⟩
      | cons r rs =>
          have hr := hhead r rfl
          simp [List.takeWhile, List.dropWhile, hr]
  | cons d ds ih =>
      simp only [List.all_cons, Bool.and_eq_true] at hall
      have ih' := ih hall.2
      simp [List.takeWhile, List.dropWhile, hall.1, ih'.1, ih'.2]

theorem all_take (p : Char → Bool) :
    ∀ (n : Nat) (l : List Char), l.all p = true → (l.take n).all p = true := by
  intro n
  induction n with
  | zero => intro l _; rfl
  | succ k ih =>
      intro l hl
      cases l with
      | nil => rfl
      | cons a as =>
          simp only [List.all_cons, Bool.and_eq_true] at hl
          simp [List.take, hl.1, ih as hl.2]

theorem groupStep_foldr_chars {sep : Char → Bool} :
    ∀ (cs : List Char), ∀ g ∈ cs.foldr (groupStep sep) [], ∀ c ∈ g, sep c = false := by
  intro cs
  induction cs with
  | nil => intro g hg; simp at hg
  | cons a as ih =>
      intro g hg c hc
      simp only [List.foldr_cons] at hg
      cases hacc : as.foldr (groupStep sep) [] with
      | nil =>
          rw [hacc] at hg
          unfold groupStep at hg
          split at hg
          · rcases List.mem_cons.mp hg with rfl | hg'
            · simp at hc
            · simp at hg'
          case _ hsep =>
            simp at hg
            subst hg
            simp at hc
            subst hc
            simpa using hsep
      | cons g0 gs0 =>
          rw [hacc] at hg
          unfold groupStep at hg
          split at hg
          · rcases List.mem_cons.mp hg with rfl | hg'
            · simp at hc
            · exact ih g (by rw [hacc]; exact hg') c hc
          case _ hsep =>
            rcases List.mem_cons.mp hg with rfl | hg'
            · rcases List.mem_cons.mp hc with rfl | hc'
              · simpa using hsep
              · exact ih g0 (by rw [hacc]; exact List.mem_cons_self _ _) c hc'
            · exact ih g (by rw [hacc]; exact List.mem_cons_of_mem _ hg') c hc

theorem groupNonSep_props {sep : Char → Bool} {cs : List Char} :
    ∀ g ∈ groupNonSep sep cs, g ≠ [] ∧ ∀ c ∈ g, sep c = false := by
  intro g hg
  unfold groupNonSep at hg
  rw [List.mem_filter] at hg
  refine ⟨by simpa using hg.2, ?_⟩
  exact groupStep_foldr_chars cs g hg.1

theorem groupStep_foldr_sepFree {sep : Char → Bool} :
    ∀ (g h : List Char) (t : List (List Char)), (∀ c ∈ g, sep c = false) →
      g.foldr (groupStep sep) (h :: t) = (g ++ h) :: t := by
  intro g
  induction g with
  | nil => intro h t _; rfl
  | cons c g' ih =>
      intro h t hfree
      simp only [List.foldr_cons]
      rw [ih h t (fun d hd => hfree d (List.mem_cons_of_mem _ hd))]
      unfold groupStep
      rw [if_neg (by simp [hfree c (List.mem_cons_self _ _)])]
      simp

theorem groupStep_foldr_single {sep : Char → Bool} :
    ∀ (g : List Char), g ≠ [] → (∀ c ∈ g, sep c = false) →
      g.foldr (groupStep sep) [] = [g] := by
  intro g
  induction g with
  | nil => intro h _; exact absurd rfl h
  | cons c g' ih =>
      intro _ hfree
      simp only [List.foldr_cons]
      by_cases hg' : g' = []
      · subst hg'
        simp only [List.foldr_nil]
        unfold groupStep
        rw [if_neg (by simp [hfree c (List.mem_cons_self _ _)])]
      · rw [ih hg' (fun e he => hfree e (List.mem_cons_of_mem _ he))]
        unfold groupStep
        rw [if_neg (by simp [hfree c (List.mem_cons_self _ _)])]

theorem joinSpace_foldr (gs : List (List Char))
    (hwf : ∀ g ∈ gs, g ≠ [] ∧ ∀ c ∈ g, pyIsSpace c = false) :
    (joinSpace gs).foldr (groupStep pyIsSpace) [] = gs := by
  induction gs with
  | nil => rfl
  | cons g gs' ih =>
      cases hgs' : gs' with
      | nil =>
          subst hgs'
          exact groupStep_foldr_single g (hwf g (by simp)).1 (hwf g (by simp)).2
      | cons g1 gs'' =>
          subst hgs'
          show (g ++ ' ' :: joinSpace (g1 :: gs'')).foldr (groupStep pyIsSpace) [] =
            g :: g1 :: gs''
          rw [List.foldr_append]
          simp only [List.foldr_cons]
          rw [ih (fun g2 hg2 => hwf g2 (List.mem_cons_of_mem _ hg2))]
          have hsp : groupStep pyIsSpace ' ' (g1 :: gs'') = [] :: g1 :: gs'' := by
            unfold groupStep
            rw [if_pos (by decide)]
          rw [hsp]
          rw [groupStep_foldr_sepFree g [] (g1 :: gs'') (hwf g (by simp)).2]
          simp

theorem groupNonSep_joinSpace (gs : List (List Char))
    (hwf : ∀ g ∈ gs, g ≠ [] ∧ ∀ c ∈ g, pyIsSpace c = false) :
    groupNonSep pyIsSpace (joinSpace gs) = gs := by
  unfold groupNonSep
  rw [joinSpace_foldr gs hwf]
  induction gs with
  | nil => rfl
  | cons g gs' ih =>
      rw [List.filter_cons]
      rw [if_pos (by simpa using (hwf g (by simp)).1)]
      rw [ih (fun g2 hg2 => hwf g2 (List.mem_cons_of_mem _ hg2))]

theorem dropWhile_cons_of_neg {p : Char → Bool} {a : Char} {l : List Char}
    (h : p a = false) : (a :: l).dropWhile p = a :: l := by
  simp [List.dropWhile, h]

theorem dropWhile_joinSpace (gs : List (List Char))
    (hwf : ∀ g ∈ gs, g ≠ [] ∧ ∀ c ∈ g, pyIsSpace c = false) :
    (joinSpace gs).dropWhile pyIsSpace = joinSpace gs := by
  cases gs with
  | nil => rfl
  | cons g gs' =>
      obtain ⟨hne, hfree⟩ := hwf g (List.mem_cons_self _ _)
      obtain ⟨c, g'', rfl⟩ : ∃ c g'', g = c :: g'' := by
        cases g with
        | nil => exact absurd rfl hne
        | cons c g'' => exact ⟨c, g'', rfl⟩
      have hc : pyIsSpace c = false := hfree c (List.mem_cons_self _ _)
      cases gs' with
      | nil => exact dropWhile_cons_of_neg hc
      | cons g1 gs'' =>
          show ((c :: g'') ++ ' ' :: joinSpace (g1 :: gs'')).dropWhile pyIsSpace =
            (c :: g'') ++ ' ' :: joinSpace (g1 :: gs'')
          rw [List.cons_append]
          exact dropWhile_cons_of_neg hc

theorem joinSpace_append_single (gs : List (List Char)) (y : List Char) (h : gs ≠ []) :
    joinSpace (gs ++ [y]) = joinSpace gs ++ ' ' :: y := by
  induction gs with
  | nil => exact absurd rfl h
  | cons g gs' ih =>
      cases gs' with
      | nil => rfl
      | cons g1 gs'' =>
          show g ++ ' ' :: joinSpace ((g1 :: gs'') ++ [y]) =
            (g ++ ' ' :: joinSpace (g1 :: gs'')) ++ ' ' :: y
          rw [ih (by simp)]
          simp

theorem reverse_joinSpace (gs : List (List Char)) :
    (joinSpace gs).reverse = joinSpace ((gs.map List.reverse).reverse) := by
  induction gs with
  | nil => rfl
  | cons g gs' ih =>
      cases gs' with
      | nil => rfl
      | cons g1 gs'' =>
          show (g ++ ' ' :: joinSpace (g1 :: gs'')).reverse = _
          rw [List.reverse_append, List.reverse_cons, ih]
          rw [show (List.map List.reverse (g :: g1 :: gs'')).reverse
              = (List.map List.reverse (g1 :: gs'')).reverse ++ [g.reverse] by simp]
          rw [joinSpace_append_single _ _ (by simp)]
          simp

theorem pyStripList_joinSpace (gs : List (List Char))
    (hwf : ∀ g ∈ gs, g ≠ [] ∧ ∀ c ∈ g, pyIsSpace c = false) :
    pyStripList (joinSpace gs) = joinSpace gs := by
  unfold pyStripList
  rw [dropWhile_joinSpace gs hwf]
  rw [reverse_joinSpace gs]
  have hwf2 : ∀ g ∈ (gs.map List.reverse).reverse,
      g ≠ [] ∧ ∀ c ∈ g, pyIsSpace c = false := by
    intro g hg
    rw [List.mem_reverse, List.mem_map] at hg
    obtain ⟨g0, hg0, rfl⟩ := hg
    obtain ⟨hne, hfree⟩ := hwf g0 hg0
    refine ⟨by simpa using hne, ?_⟩
    intro c hc
    exact hfree c (by simpa using hc)
  rw [dropWhile_joinSpace _ hwf2]
  rw [← reverse_joinSpace gs]
  rw [List.reverse_reverse]

theorem normalize_course_name_idem (s : String) :
    normalize_course_name (normalize_course_name s) = normalize_course_name s := by
  unfold normalize_course_name
  have hwf : ∀ g ∈ groupNonSep pyIsSpace (pyStripList s.data),
      g ≠ [] ∧ ∀ c ∈ g, pyIsSpace c = false := groupNonSep_props
  rw [show (String.mk (joinSpace (groupNonSep pyIsSpace (pyStripList s.data)))).data
      = joinSpace (groupNonSep pyIsSpace (pyStripList s.data)) from rfl]
  rw [pyStripList_joinSpace _ hwf, groupNonSep_joinSpace _ hwf]

theorem mem_pyInsert {s : List Nat} {a x : Nat} :
    x ∈ pyInsert s a ↔ x ∈ s ∨ x = a := by
  unfold pyInsert
  split
  case _ h => simp; intro hx; rw [hx]; exact h
  case _ h => simp

theorem nodup_pyInsert {s : List Nat} (a : Nat) (h : s.Nodup) :
    (pyInsert s a).Nodup := by
  unfold pyInsert
  split
  case _ => exact h
  case _ hmem => simp [List.nodup_append, h, hmem]

theorem mem_foldl_pyInsert {α : Type} (f : α → Nat) (l : List α) :
    ∀ (s : List Nat) (x : Nat),
      (x ∈ l.foldl (fun t a => pyInsert t (f a)) s ↔ x ∈ s ∨ ∃ a ∈ l, x = f a) := by
  induction l with
  | nil => intro s x; simp
  | cons b bs ih =>
      intro s x
      simp only [List.foldl_cons]
      rw [ih (pyInsert s (f b)) x]
      rw [mem_pyInsert]
      constructor
      · rintro ((hx | hx) | ⟨a, ha, rfl⟩)
        · exact Or.inl hx
        · exact Or.inr ⟨b, by simp, hx⟩
        · exact Or.inr ⟨a, by simp [ha], rfl⟩
      · rintro (hx | ⟨a, ha, rfl⟩)
        · exact Or.inl (Or.inl hx)
        · rcases List.mem_cons.mp ha with rfl | ha
          · exact Or.inl (Or.inr rfl)
          · exact Or.inr ⟨a, ha, rfl⟩

theorem nodup_foldl_pyInsert {α : Type} (f : α → Nat) (l : List α) :
    ∀ (s : List Nat), s.Nodup → (l.foldl (fun t a => pyInsert t (f a)) s).Nodup := by
  induction l with
  | nil => intro s h; exact h
  | cons b bs ih =>
      intro s h
      simp only [List.foldl_cons]
      exact ih (pyInsert s (f b)) (nodup_pyInsert (f b) h)

theorem add_member_loop_go (rs : List EnrollTarget) :
    ∀ (a b : List Nat),
      rs.foldl
        (fun acc m =>
          if m.hasRole then acc
          else (acc.1 ++ [m.memberId], if m.permitted then acc.2 ++ [m.memberId] else acc.2))
        (a, b) =
      (a ++ (rs.filter (fun m => !m.hasRole)).map EnrollTarget.memberId,
       b ++ (rs.filter (fun m => !m.hasRole && m.permitted)).map EnrollTarget.memberId) := by
  induction rs with
  | nil => intro a b; simp
  | cons m ms ih =>
      intro a b
      cases hrole : m.hasRole with
      | true => simp [List.foldl_cons, List.filter_cons, hrole, ih]
      | false =>
          cases hperm : m.permitted with
          | true => simp [List.foldl_cons, List.filter_cons, hrole, hperm, ih]
          | false => simp [List.foldl_cons, List.filter_cons, hrole, hperm, ih]

theorem add_member_loop_closed (rs : List EnrollTarget) :
    add_member_loop rs =
      ((rs.filter (fun m => !m.hasRole)).map EnrollTarget.memberId,
       (rs.filter (fun m => !m.hasRole && m.permitted)).map EnrollTarget.memberId) := by
  have h := add_member_loop_go rs [] []
  simpa [add_member_loop] using h

theorem remove_member_loop_go (rs : List EnrollTarget) :
    ∀ (a b : List Nat),
      rs.foldl
        (fun acc m =>
          if m.hasRole = false then acc
          else (acc.1 ++ [m.memberId], if m.permitted then acc.2 ++ [m.memberId] else acc.2))
        (a, b) =
      (a ++ (rs.filter (fun m => m.hasRole)).map EnrollTarget.memberId,
       b ++ (rs.filter (fun m => m.hasRole && m.permitted)).map EnrollTarget.memberId) := by
  induction rs with
  | nil => intro a b; simp
  | cons m ms ih =>
      intro a b
      cases hrole : m.hasRole with
      | false => simp [List.foldl_cons, List.filter_cons, hrole, ih]
      | true =>
          cases hperm : m.permitted with
          | true => simp [List.foldl_cons, List.filter_cons, hrole, hperm, ih]
          | false => simp [List.foldl_cons, List.filter_cons, hrole, hperm, ih]

theorem remove_member_loop_closed (rs : List EnrollTarget) :
    remove_member_loop rs =
      ((rs.filter (fun m => m.hasRole)).map EnrollTarget.memberId,
       (rs.filter (fun m => m.hasRole && m.permitted)).map EnrollTarget.memberId) := by
  have h := remove_member_loop_go rs [] []
  simpa [remove_member_loop] using h

/-! ## Claim theorems -/

/-- C1, as the specification states it, is false: when role creation
succeeds and the subsequent channel creation fails, the handler sends no
reply at all (there is no `try/except` around the creation calls), so the
caller is not told that a role now exists without its channel. Concretely,
in a guild with no roles, a working category and a platform that rejects
channel creation, `create-kurs Algebra` creates the role, attempts the
channel, and ends with an uncaught exception and an empty reply list. -/
theorem C1_claim_counterexample :
    (create_kurs ⟨[], true, true, false⟩ "Algebra").replies = [] ∧
    (create_kurs ⟨[], true, true, false⟩ "Algebra").uncaughtError = true ∧
    DirectoryCall.createRole "Algebra" ∈ (create_kurs ⟨[], true, true, false⟩ "Algebra").calls := by
  decide

/-- C1 (amended): if the role creation step succeeds but the text-channel
creation fails, the exception escapes the handler uncaught — the caller
receives no reply at all, distinct or otherwise — and the created role is
not rolled back (no delete-role call is ever attempted). -/
theorem C1_amended_no_reply_no_rollback (g : KursGuild) (name : String)
    (hname : normalize_course_name name ≠ "")
    (hdup : fetch_course_role g.roleNames (normalize_course_name name) = false)
    (hcat : g.categoryOk = true) (hrole : g.roleCreateOk = true)
    (hchan : g.channelCreateOk = false) :
    (create_kurs g name).replies = [] ∧
    (create_kurs g name).uncaughtError = true ∧
    (create_kurs g name).calls =
      [DirectoryCall.createRole (normalize_course_name name),
       DirectoryCall.createChannel (slugify (normalize_course_name name))] ∧
    ∀ r, DirectoryCall.deleteRole r ∉ (create_kurs g name).calls := by
  unfold create_kurs
  simp [hname, hdup, hcat, hrole, hchan]

/-- Witness for C1 (amended) at a concrete guild and course name. -/
theorem C1_amended_witness :
    (create_kurs ⟨[], true, true, false⟩ "Algebra").replies = [] ∧
    (create_kurs ⟨[], true, true, false⟩ "Algebra").uncaughtError = true ∧
    (create_kurs ⟨[], true, true, false⟩ "Algebra").calls =
      [DirectoryCall.createRole (normalize_course_name "Algebra"),
       DirectoryCall.createChannel (slugify (normalize_course_name "Algebra"))] := by
  have h := C1_amended_no_reply_no_rollback ⟨[], true, true, false⟩ "Algebra"
    (by decide) (by decide) rfl rfl rfl
  exact ⟨h.1, h.2.1, h.2.2.1⟩

/-- C2: any create-kurs invocation whose normalized name is empty, or whose
normalized name case-insensitively matches an existing role name, ends with
a rejection reply and attempts no mutating Directory call. -/
theorem C2_rejected_before_mutation (g : KursGuild) (name : String)
    (h : normalize_course_name name = "" ∨
         ∃ r ∈ g.roleNames, pyCasefold r = pyCasefold (normalize_course_name name)) :
    (create_kurs g name).calls = [] ∧
    ((create_kurs g name).replies = [KursReply.emptyName] ∨
     (create_kurs g name).replies = [KursReply.duplicateRole]) ∧
    (create_kurs g name).uncaughtError = false := by
  unfold create_kurs
  by_cases hempty : normalize_course_name name = ""
  · simp [hempty]
  · have hdup : ∃ r ∈ g.roleNames, pyCasefold r = pyCasefold (normalize_course_name name) := by
      rcases h with h | h
      · exact absurd h hempty
      · exact h
    have hfetch : fetch_course_role g.roleNames (normalize_course_name name) = true := by
      unfold fetch_course_role
      rw [List.any_eq_true]
      obtain ⟨r, hr, heq⟩ := hdup
      exact ⟨r, hr, by simp [normalize_course_name_idem, heq]⟩
    simp [hempty, hfetch]

/-- Witness for C2: a whitespace-only name and a case-variant duplicate of
an existing role are both rejected without any Directory mutation. -/
theorem C2_witness :
    ((create_kurs ⟨["Algebra"], true, true, true⟩ "   ").calls = [] ∧
     ((create_kurs ⟨["Algebra"], true, true, true⟩ "   ").replies = [KursReply.emptyName] ∨
      (create_kurs ⟨["Algebra"], true, true, true⟩ "   ").replies = [KursReply.duplicateRole]) ∧
     (create_kurs ⟨["Algebra"], true, true, true⟩ "   ").uncaughtError = false) ∧
    ((create_kurs ⟨["Algebra"], true, true, true⟩ " aLgEbRa ").calls = [] ∧
     ((create_kurs ⟨["Algebra"], true, true, true⟩ " aLgEbRa ").replies = [KursReply.emptyName] ∨
      (create_kurs ⟨["Algebra"], true, true, true⟩ " aLgEbRa ").replies = [KursReply.duplicateRole]) ∧
     (create_kurs ⟨["Algebra"], true, true, true⟩ " aLgEbRa ").uncaughtError = false) :=
  ⟨C2_rejected_before_mutation _ _ (Or.inl (by decide)),
   C2_rejected_before_mutation _ _ (Or.inr ⟨"Algebra", by decide, by decide⟩)⟩

/-- C3: a caller with the administrative flag passes both predicates even
with no roles at all; a caller whose only qualification is the configured
Teacher role passes the course-staff predicate but not the moderator
predicate; and in both predicates the blanket permission flags decide the
outcome before (independently of) any role-membership check. -/
theorem C3_authorization_policy (modId teachId : Nat) :
    (∀ m : Member, m.perms.administrator = true →
        require_moderator modId m = true ∧ require_course_staff modId teachId m = true) ∧
    (∀ m : Member, m.perms.administrator = false → m.perms.manage_guild = false →
        m.perms.moderate_members = false → m.roles = [teachId] →
        teachId ≠ 0 → teachId ≠ modId →
        require_course_staff modId teachId m = true ∧ require_moderator modId m = false) ∧
    (∀ (p : Perms) (roles1 roles2 : List Nat),
        (p.administrator || p.manage_guild || p.moderate_members) = true →
        require_moderator modId ⟨p, roles1⟩ = true ∧
        require_moderator modId ⟨p, roles1⟩ = require_moderator modId ⟨p, roles2⟩) ∧
    (∀ (p : Perms) (roles1 roles2 : List Nat),
        (p.administrator || p.manage_guild) = true →
        require_course_staff modId teachId ⟨p, roles1⟩ = true ∧
        require_course_staff modId teachId ⟨p, roles1⟩ =
          require_course_staff modId teachId ⟨p, roles2⟩) := by
  refine ⟨?_, ?_, ?_, ?_⟩
  · intro m hadm
    constructor
    · unfold require_moderator
      simp [hadm]
    · unfold require_course_staff
      simp [hadm]
  · intro m hadm hmg hmm hroles hne0 hnemod
    constructor
    · unfold require_course_staff
      rw [hadm, hmg]
      have hhas : member_has_any_role m [modId, teachId] = true := by
        unfold member_has_any_role
        rw [List.any_eq_true]
        refine ⟨teachId, ?_, ?_⟩
        · rw [List.mem_filter]
          exact ⟨by simp, by simp [hne0]⟩
        · unfold member_has_role
          simp [hne0, hroles]
      simp [hhas]
    · unfold require_moderator
      rw [hadm, hmg, hmm]
      have hhas : member_has_role m modId = false := by
        unfold member_has_role
        rw [hroles]
        have hbeq : (teachId == modId) = false := by
          simp
          exact hnemod
        simp [hbeq]
      simp [hhas]
  · intro p roles1 roles2 hflags
    unfold require_moderator
    simp [hflags]
  · intro p roles1 roles2 hflags
    unfold require_course_staff
    simp [hflags]

/-- Witness for C3 at concrete role ids and members. -/
theorem C3_witness :
    (require_moderator 10 ⟨⟨true, false, false⟩, []⟩ = true ∧
     require_course_staff 10 20 ⟨⟨true, false, false⟩, []⟩ = true) ∧
    (require_course_staff 10 20 ⟨⟨false, false, false⟩, [20]⟩ = true ∧
     require_moderator 10 ⟨⟨false, false, false⟩, [20]⟩ = false) ∧
    (require_moderator 10 ⟨⟨false, false, true⟩, []⟩ = true ∧
     require_moderator 10 ⟨⟨false, false, true⟩, []⟩ =
       require_moderator 10 ⟨⟨false, false, true⟩, [10, 20]⟩) ∧
    (require_course_staff 10 20 ⟨⟨false, true, false⟩, []⟩ = true ∧
     require_course_staff 10 20 ⟨⟨false, true, false⟩, []⟩ =
       require_course_staff 10 20 ⟨⟨false, true, false⟩, [10, 20]⟩) :=
  ⟨(C3_authorization_policy 10 20).1 ⟨⟨true, false, false⟩, []⟩ rfl,
   (C3_authorization_policy 10 20).2.1 ⟨⟨false, false, false⟩, [20]⟩ rfl rfl rfl rfl
     (by decide) (by decide),
   (C3_authorization_policy 10 20).2.2.1 ⟨false, false, true⟩ [] [10, 20] rfl,
   (C3_authorization_policy 10 20).2.2.2 ⟨false, true, false⟩ [] [10, 20] rfl⟩

/-- C5: every parsed duration strictly above the 28-day ceiling
(`MAX_TIMEOUT_SECONDS = 2419200`) is rejected with the too-long validation
reply and no timeout mutation is attempted, while `"28d"` parses to exactly
the ceiling, passes the check, and the timeout is attempted. -/
theorem C5_timeout_ceiling :
    (∀ (dauer : String) (perm : Bool) (s : Nat),
        parse_duration dauer = some s → s > MAX_TIMEOUT_SECONDS →
        timeout_command dauer perm = ⟨.tooLong, false⟩) ∧
    parse_duration "28d" = some MAX_TIMEOUT_SECONDS ∧
    MAX_TIMEOUT_SECONDS = 2419200 ∧
    (∀ perm : Bool, (timeout_command "28d" perm).outcome ≠ .tooLong ∧
        (timeout_command "28d" perm).outcome ≠ .invalidFormat ∧
        (timeout_command "28d" perm).mutationAttempted = true) := by
  refine ⟨?_, by decide, by decide, ?_⟩
  · intro dauer perm s hs hgt
    unfold timeout_command
    rw [hs]
    have hne : ¬ s = 0 := by omega
    simp [hne, hgt]
  · intro perm
    cases perm <;> exact ⟨by decide, by decide, by decide⟩

/-- Witness for C5: `"29d"` parses above the ceiling and is rejected with
the too-long reply and no mutation attempt. -/
theorem C5_witness :
    timeout_command "29d" true = ⟨.tooLong, false⟩ :=
  C5_timeout_ceiling.1 "29d" true 2505600 (by decide) (by decide)

/-- C10: a duration that parses to exactly 0 seconds is rejected with the
same invalid-format reply as an unparseable string — Python's
`if not seconds` treats a parsed 0 like `None` — and no timeout mutation is
attempted; `"0"`, `"0s"`, `"0m"`, `"0d"` all parse to 0. -/
theorem C10_zero_duration_rejected :
    (∀ (dauer : String) (perm : Bool),
        parse_duration dauer = some 0 ∨ parse_duration dauer = none →
        timeout_command dauer perm = ⟨.invalidFormat, false⟩) ∧
    parse_duration "0" = some 0 ∧ parse_duration "0s" = some 0 ∧
    parse_duration "0m" = some 0 ∧ parse_duration "0d" = some 0 ∧
    parse_duration "abc" = none := by
  refine ⟨?_, by decide, by decide, by decide, by decide, by decide⟩
  intro dauer perm h
  unfold timeout_command
  rcases h with h | h
  · rw [h]
    simp
  · rw [h]

/-- Witness for C10: `"0d"` is rejected exactly like the unparseable
`"abc"`. -/
theorem C10_witness :
    timeout_command "0d" true = ⟨.invalidFormat, false⟩ ∧
    timeout_command "abc" true = ⟨.invalidFormat, false⟩ :=
  ⟨C10_zero_duration_rejected.1 "0d" true (Or.inl (by decide)),
   C10_zero_duration_rejected.1 "abc" true (Or.inr (by decide))⟩

/-- C6: for every input string the slug is at most 90 characters, nonempty
(falling back to the literal `"kurs"`), and drawn entirely from
`[a-z0-9-]`; and the substitution rule is exact (no collapsing of dash
runs), as the concrete example shows. -/
theorem C6_slugify_shape :
    (∀ s : String, (slugify s).length ≤ 90 ∧ slugify s ≠ "" ∧
        (slugify s).data.all isSlugChar = true) ∧
    slugify "  Intro to   Algebra!! " = "intro-to---algebra--" := by
  refine ⟨?_, by decide⟩
  intro s
  have hdef : slugify s =
      (if ((((pyLower (pyStrip s)).data.map (fun c => if c = ' ' then '-' else c)).map
            (fun c => if isSlugChar c then c else '-')).take 90) = []
       then "kurs"
       else String.mk ((((pyLower (pyStrip s)).data.map
              (fun c => if c = ' ' then '-' else c)).map
            (fun c => if isSlugChar c then c else '-')).take 90)) := rfl
  rw [hdef]
  split
  · exact ⟨by decide, by decide, by decide⟩
  case _ hne =>
    refine ⟨?_, ?_, ?_⟩
    · show ((((pyLower (pyStrip s)).data.map (fun c => if c = ' ' then '-' else c)).map
          (fun c => if isSlugChar c then c else '-')).take 90).length ≤ 90
      rw [List.length_take]
      exact Nat.min_le_left _ _
    · intro hcon
      apply hne
      simpa using congrArg String.data hcon
    · show ((((pyLower (pyStrip s)).data.map (fun c => if c = ' ' then '-' else c)).map
          (fun c => if isSlugChar c then c else '-')).take 90).all isSlugChar = true
      apply all_take
      apply List.all_eq_true.mpr
      intro c hc
      rw [List.mem_map] at hc
      obtain ⟨d, -, rfl⟩ := hc
      by_cases hd : isSlugChar d
      · simp [hd]
      · simp [hd]
        decide

/-- Witness for C6 at a concrete input: the stated shape facts hold for the
spec's own example. -/
theorem C6_witness :
    (slugify "  Intro to   Algebra!! ").length ≤ 90 ∧
    (slugify "  Intro to   Algebra!! ").data.all isSlugChar = true :=
  ⟨(C6_slugify_shape.1 "  Intro to   Algebra!! ").1,
   (C6_slugify_shape.1 "  Intro to   Algebra!! ").2.2⟩

/-- Each member id of a nodup-id batch lands in the mapped filter exactly
when it satisfies the filter predicate. -/
theorem mem_map_filter_iff (rs : List EnrollTarget)
    (hnodup : (rs.map EnrollTarget.memberId).Nodup)
    (p : EnrollTarget → Bool) (m : EnrollTarget) (hm : m ∈ rs) :
    m.memberId ∈ (rs.filter p).map EnrollTarget.memberId ↔ p m = true := by
  constructor
  · intro hmem
    rw [List.mem_map] at hmem
    obtain ⟨m2, hm2, heq⟩ := hmem
    rw [List.mem_filter] at hm2
    have hmm : m2 = m := List.inj_on_of_nodup_map hnodup hm2.1 hm heq
    rw [← hmm]
    exact hm2.2
  · intro hp
    exact List.mem_map.mpr ⟨m, List.mem_filter.mpr ⟨hm, hp⟩, rfl⟩

/-- C7: in a batch of resolved members with distinct ids, a member already
in the target state (already holding the role on add, already lacking it on
remove) triggers no role-mutation call and is excluded from the changed
list, while a member not in the target state is mutated and, when the
platform permits it, counted — so add and remove are idempotent per
member; the reported counts equal the lengths of the changed lists. -/
theorem C7_enrollment_idempotent (rs : List EnrollTarget)
    (hnodup : (rs.map EnrollTarget.memberId).Nodup) :
    (∀ m ∈ rs,
      (m.hasRole = true →
        m.memberId ∉ (add_member_loop rs).1 ∧ m.memberId ∉ (add_member_loop rs).2 ∧
        m.memberId ∈ (remove_member_loop rs).1 ∧
        (m.permitted = true → m.memberId ∈ (remove_member_loop rs).2)) ∧
      (m.hasRole = false →
        m.memberId ∉ (remove_member_loop rs).1 ∧ m.memberId ∉ (remove_member_loop rs).2 ∧
        m.memberId ∈ (add_member_loop rs).1 ∧
        (m.permitted = true → m.memberId ∈ (add_member_loop rs).2))) ∧
    (add_member_loop rs).2.length =
      (rs.filter (fun m => !m.hasRole && m.permitted)).length ∧
    (remove_member_loop rs).2.length =
      (rs.filter (fun m => m.hasRole && m.permitted)).length := by
  refine ⟨?_, ?_, ?_⟩
  · intro m hm
    rw [add_member_loop_closed, remove_member_loop_closed]
    constructor
    · intro hrole
      refine ⟨?_, ?_, ?_, ?_⟩
      · rw [mem_map_filter_iff rs hnodup _ m hm]
        simp [hrole]
      · rw [mem_map_filter_iff rs hnodup _ m hm]
        simp [hrole]
      · rw [mem_map_filter_iff rs hnodup _ m hm]
        exact hrole
      · intro hperm
        rw [mem_map_filter_iff rs hnodup _ m hm]
        simp [hrole, hperm]
    · intro hrole
      refine ⟨?_, ?_, ?_, ?_⟩
      · rw [mem_map_filter_iff rs hnodup _ m hm]
        simp [hrole]
      · rw [mem_map_filter_iff rs hnodup _ m hm]
        simp [hrole]
      · rw [mem_map_filter_iff rs hnodup _ m hm]
        simp [hrole]
      · intro hperm
        rw [mem_map_filter_iff rs hnodup _ m hm]
        simp [hrole, hperm]
  · rw [add_member_loop_closed]
    exact List.length_map _ _
  · rw [remove_member_loop_closed]
    exact List.length_map _ _

/-- Witness for C7 on a concrete batch: the member already holding the role
is neither mutated nor counted by add, while the member lacking it is; the
remove direction is symmetric. -/
theorem C7_witness :
    (1 : Nat) ∈ (remove_member_loop [⟨1, true, true⟩, ⟨2, false, true⟩]).1 ∧
    (1 : Nat) ∈ (remove_member_loop [⟨1, true, true⟩, ⟨2, false, true⟩]).2 ∧
    (2 : Nat) ∈ (add_member_loop [⟨1, true, true⟩, ⟨2, false, true⟩]).1 ∧
    (2 : Nat) ∈ (add_member_loop [⟨1, true, true⟩, ⟨2, false, true⟩]).2 ∧
    (add_member_loop [⟨1, true, true⟩, ⟨2, false, true⟩]).2.length =
      (([⟨1, true, true⟩, ⟨2, false, true⟩] : List EnrollTarget).filter
        (fun m => !m.hasRole && m.permitted)).length := by
  have h := C7_enrollment_idempotent [⟨1, true, true⟩, ⟨2, false, true⟩] (by decide)
  have h1 := (h.1 ⟨1, true, true⟩ (by simp)).1 rfl
  have h2 := (h.1 ⟨2, false, true⟩ (by simp)).2 rfl
  exact ⟨h1.2.2.1, h1.2.2.2 rfl, h2.2.2.1, h2.2.2.2 rfl, h.2.1⟩

/-- C4: `parse_duration` works on the trimmed, lower-cased input and accepts
exactly the strings of one-or-more digits followed by an optional unit in
`{s, m, h, d}` with multipliers `{1, 60, 3600, 86400}`, defaulting to
minutes; the spec's example values hold and non-matching input yields
`none` rather than an error. -/
theorem C4_parse_duration_pattern :
    (∀ (s : String) (n : Nat), parse_duration s = some n ↔
      ∃ ds rest, (pyLower (pyStrip s)).data = ds ++ rest ∧ ds ≠ [] ∧
        ds.all Char.isDigit = true ∧
        ((rest = [] ∧ n = digitsToNat ds * 60) ∨
         (∃ u, rest = [u] ∧ isUnitChar u = true ∧
            n = digitsToNat ds * TIME_MULTIPLIERS u))) ∧
    parse_duration "30m" = some 1800 ∧ parse_duration "2h" = some 7200 ∧
    parse_duration "7d" = some 604800 ∧ parse_duration "45" = some 2700 ∧
    parse_duration "abc" = none ∧ parse_duration " 30M " = some 1800 := by
  refine ⟨?_, by decide, by decide, by decide, by decide, by decide, by decide⟩
  intro s n
  have hdef : parse_duration s =
      (if (pyLower (pyStrip s)).data.takeWhile Char.isDigit = [] then none
       else
         match (pyLower (pyStrip s)).data.dropWhile Char.isDigit with
         | [] => some (digitsToNat ((pyLower (pyStrip s)).data.takeWhile Char.isDigit) *
             TIME_MULTIPLIERS 'm')
         | [u] =>
             if isUnitChar u then
               some (digitsToNat ((pyLower (pyStrip s)).data.takeWhile Char.isDigit) *
                 TIME_MULTIPLIERS u)
             else none
         | _ => none) := rfl
  constructor
  · intro h
    have hsplit : (pyLower (pyStrip s)).data =
        (pyLower (pyStrip s)).data.takeWhile Char.isDigit ++
          (pyLower (pyStrip s)).data.dropWhile Char.isDigit :=
      (List.takeWhile_append_dropWhile Char.isDigit _).symm
    rw [hdef] at h
    split at h
    · exact absurd h (by simp)
    case _ hne =>
      split at h
      case _ hdrop =>
        rw [hdrop, List.append_nil] at hsplit
        simp only [Option.some.injEq] at h
        exact ⟨_, [], by rw [List.append_nil]; exact hsplit, hne, all_takeWhile _ _,
          Or.inl ⟨rfl, h.symm⟩⟩
      case _ u hdrop =>
        rw [hdrop] at hsplit
        by_cases hu : isUnitChar u = true
        · rw [if_pos hu] at h
          simp only [Option.some.injEq] at h
          exact ⟨_, [u], hsplit, hne, all_takeWhile _ _, Or.inr ⟨u, rfl, hu, h.symm⟩⟩
        · rw [if_neg hu] at h
          exact absurd h (by simp)
      case _ => exact absurd h (by simp)
  · rintro ⟨ds, rest, hsplit, hne, hall, hcase⟩
    have hhead : ∀ c, rest.head? = some c → Char.isDigit c = false := by
      rcases hcase with ⟨rfl, -⟩ | ⟨u, rfl, hu, -⟩
      · intro c hc
        simp at hc
      · intro c hc
        simp at hc
        subst hc
        rcases (by simpa [isUnitChar, or_assoc] using hu :
            u = 's' ∨ u = 'm' ∨ u = 'h' ∨ u = 'd') with rfl | rfl | rfl | rfl <;> decide
    obtain ⟨htake, hdrop⟩ := takeWhile_of_all_append hall hhead
    rw [hdef, hsplit, htake, hdrop, if_neg hne]
    rcases hcase with ⟨rfl, rfl⟩ | ⟨u, rfl, hu, rfl⟩
    · rfl
    · show (if isUnitChar u = true then
          some (digitsToNat ds * TIME_MULTIPLIERS u) else none) =
        some (digitsToNat ds * TIME_MULTIPLIERS u)
      rw [if_pos hu]

/-- Witness for C4: the characterization applied at `"30m"`, with the
decomposition given explicitly. -/
theorem C4_witness : parse_duration "30m" = some 1800 :=
  (C4_parse_duration_pattern.1 "30m" 1800).mpr
    ⟨['3', '0'], ['m'], by decide, by decide, by decide,
      Or.inr ⟨'m', rfl, by decide, by decide⟩⟩

theorem parse_embed_color_present (r : String) (h : ¬ r.data = []) :
    parse_embed_color (some r) = parse_embed_color_body r := by
  show (if r.data = [] then ColorResult.ok BLURPLE else parse_embed_color_body r) =
    parse_embed_color_body r
  rw [if_neg h]

theorem parse_embed_color_body_eq (r : String) (un : List Char)
    (hun : (match (pyStripList r.data).map Char.toLower with
            | '#' :: rest => rest
            | cs => cs) = un) :
    parse_embed_color_body r =
      (if un.length = 3 ∨ un.length = 6 then
         (if (if un.length = 3 then un.flatMap (fun c => [c, c]) else un).length = 6 ∧
             (if un.length = 3 then un.flatMap (fun c => [c, c]) else un).all isHexLower
          then ColorResult.ok
            (hexToNat (if un.length = 3 then un.flatMap (fun c => [c, c]) else un))
          else ColorResult.charError)
       else ColorResult.lengthError) := by
  subst hun
  rfl

theorem specExpandedHex_eq (s : String) (un : List Char)
    (hun : (match (pyStripList s.data).map Char.toLower with
            | '#' :: rest => rest
            | cs => cs) = un) :
    specExpandedHex s =
      (if (if un.length = 3 then un.flatMap (fun c => [c, c]) else un).length = 6 ∧
          (if un.length = 3 then un.flatMap (fun c => [c, c]) else un).all isHexLower
       then some (if un.length = 3 then un.flatMap (fun c => [c, c]) else un)
       else none) := by
  subst hun
  rfl

/-- C8: the embed-color parser yields the fixed default on absent input,
`"#fff"` and `"ffffff"` yield the same color, and it fails with one of its
two invalid-color errors exactly when the present input does not expand —
after trimming, lower-casing, dropping a leading `#` and doubling a 3-digit
form — to six characters of `[0-9a-f]`, as with `"#gg0000"`. -/
theorem C8_embed_color :
    parse_embed_color none = .ok BLURPLE ∧
    parse_embed_color (some "#fff") = parse_embed_color (some "ffffff") ∧
    parse_embed_color (some "#fff") = .ok 16777215 ∧
    parse_embed_color (some "#gg0000") = .charError ∧
    (∀ s : String, s ≠ "" →
      ((parse_embed_color (some s) = .lengthError ∨
        parse_embed_color (some s) = .charError) ↔ specExpandedHex s = none)) := by
  refine ⟨by decide, by decide, by decide, by decide, ?_⟩
  intro s hs
  have hdata : ¬ s.data = [] := by
    intro hd
    apply hs
    cases s with
    | mk cs =>
        simp at hd
        rw [hd]
  obtain ⟨un, hun⟩ : ∃ un, (match (pyStripList s.data).map Char.toLower with
      | '#' :: rest => rest
      | cs => cs) = un := ⟨_, rfl⟩
  rw [parse_embed_color_present s hdata, parse_embed_color_body_eq s un hun,
    specExpandedHex_eq s un hun]
  by_cases h3 : un.length = 3
  · by_cases hhex : (if un.length = 3 then un.flatMap (fun c => [c, c]) else un).length = 6 ∧
        (if un.length = 3 then un.flatMap (fun c => [c, c]) else un).all isHexLower
    · rw [if_pos (Or.inl h3), if_pos hhex, if_pos hhex]
      simp
    · rw [if_pos (Or.inl h3), if_neg hhex, if_neg hhex]
      simp
  · by_cases h6 : un.length = 6
    · by_cases hhex : (if un.length = 3 then un.flatMap (fun c => [c, c]) else un).length = 6 ∧
          (if un.length = 3 then un.flatMap (fun c => [c, c]) else un).all isHexLower
      · rw [if_pos (Or.inr h6), if_pos hhex, if_pos hhex]
        simp
      · rw [if_pos (Or.inr h6), if_neg hhex, if_neg hhex]
        simp
    · have hor : ¬ (un.length = 3 ∨ un.length = 6) := by
        intro hor
        rcases hor with h | h
        · exact h3 h
        · exact h6 h
      rw [if_neg hor]
      have hno : ¬ ((if un.length = 3 then un.flatMap (fun c => [c, c]) else un).length = 6 ∧
          (if un.length = 3 then un.flatMap (fun c => [c, c]) else un).all isHexLower) := by
        rw [if_neg h3]
        intro hcon
        exact h6 hcon.1
      rw [if_neg hno]
      simp

/-- Witness for C8: both directions of the exactness equivalence at
`"#gg0000"`, a present input that does not expand to six hex digits. -/
theorem C8_witness :
    specExpandedHex "#gg0000" = none ∧
    (parse_embed_color (some "#gg0000") = .lengthError ∨
     parse_embed_color (some "#gg0000") = .charError) :=
  ⟨(C8_embed_color.2.2.2.2 "#gg0000" (by decide)).mp (Or.inr (by decide)),
   (C8_embed_color.2.2.2.2 "#gg0000" (by decide)).mpr (by decide)⟩

theorem mem_foldl_pyInsert_id (l s : List Nat) (x : Nat) :
    x ∈ l.foldl pyInsert s ↔ x ∈ s ∨ x ∈ l := by
  have h := mem_foldl_pyInsert (fun a => a) l s x
  simpa using h

theorem nodup_foldl_pyInsert_id (l s : List Nat) (h : s.Nodup) :
    (l.foldl pyInsert s).Nodup :=
  nodup_foldl_pyInsert (fun a => a) l s h

/-- C9: the extracted member ids are the union of the mention-pattern
matches and the purely numeric comma/whitespace-delimited chunks, with set
semantics (no id appears twice); on the spec's example the result is
exactly the set of 123, 456 and 789. -/
theorem C9_extract_member_ids :
    (∀ raw : String, (extract_member_ids raw).Nodup) ∧
    (∀ (raw : String) (x : Nat),
        x ∈ extract_member_ids raw ↔
          x ∈ scanMentions raw.data ∨
          ∃ ch ∈ groupNonSep (fun c => c = ',' || pyIsSpace c) raw.data,
            (ch ≠ [] && ch.all Char.isDigit) = true ∧ x = digitsToNat ch) ∧
    extract_member_ids "<@123> 456,789 <@!456>" = [123, 456, 789] := by
  refine ⟨?_, ?_, by decide⟩
  · intro raw
    unfold extract_member_ids
    exact nodup_foldl_pyInsert digitsToNat _ _
      (nodup_foldl_pyInsert_id _ [] List.nodup_nil)
  · intro raw x
    unfold extract_member_ids
    rw [mem_foldl_pyInsert digitsToNat]
    rw [mem_foldl_pyInsert_id]
    simp only [List.not_mem_nil, false_or]
    constructor
    · rintro (hm | ⟨ch, hch, rfl⟩)
      · exact Or.inl hm
      · rw [List.mem_filter] at hch
        exact Or.inr ⟨ch, hch.1, hch.2, rfl⟩
    · rintro (hm | ⟨ch, hch, hpred, rfl⟩)
      · exact Or.inl hm
      · exact Or.inr ⟨ch, List.mem_filter.mpr ⟨hch, hpred⟩, rfl⟩

/-- Witness for C9: both universal parts applied to the spec's example
string; the mention-wrapped 456 is recovered through the membership
characterization. -/
theorem C9_witness :
    (extract_member_ids "<@123> 456,789 <@!456>").Nodup ∧
    (456 : Nat) ∈ extract_member_ids "<@123> 456,789 <@!456>" :=
  ⟨C9_extract_member_ids.1 "<@123> 456,789 <@!456>",
   (C9_extract_member_ids.2.1 "<@123> 456,789 <@!456>" 456).mpr (Or.inl (by decide))⟩

end FarningBot
